import Mathlib

/-!
Verification of the Query Safety & Plan Analysis Engine of PgProbe.

The definitions below are a shallow embedding of the TypeScript sources
`src/tools/query.ts`, `src/tools/optimization.ts` and `src/database.ts`:
SQL text is modelled as `String` / `List Char`, JavaScript regular
expressions are modelled by explicit recursive scanners with the same
matching semantics (restricted to the ASCII character classes the code
actually relies on), JavaScript numbers are modelled by `Int` for row
estimates and `ℚ` for costs, and nullable / optional JSON fields are
modelled by `Option`.
-/

set_option autoImplicit false
set_option maxRecDepth 100000

namespace PgProbe

/-! ## Character classes (JS `\s`, `\w`, string `trim`) -/

/-- ASCII whitespace as matched by the JS regex class `\s` and removed by
`String.prototype.trim`. -/
def isWS (c : Char) : Bool :=
  c = ' ' || c = '\t' || c = '\n' || c = '\r' || c = '\x0b' || c = '\x0c'

/-- JS regex word characters `\w` = `[A-Za-z0-9_]`. -/
def isWordChar (c : Char) : Bool :=
  c.isAlphanum || c = '_'

/-! ## Comment stripping (`query.ts` lines 125-127)

The code runs two JS replacements on the SQL text: first every `--`
comment is removed up to (excluding) the line terminator (pattern
`--.*$` with flags `gm`), then every lazily-matched block comment
(pattern `\x2f\*[\s\S]*?\*\x2f` with flag `g`, where `\x2f` is the
forward slash) is removed. -/

/-- Scanner for the replacement of `--.*$` (flags `gm`) by the empty
string.  The `Bool` flag records whether we are currently inside a `--`
comment; the line terminator itself is kept (`.` and `$` in JS do not
cross `\n` or `\r`). -/
def stripLineCommentsAux : Bool → List Char → List Char
  | _, [] => []
  | false, '-' :: '-' :: rest => stripLineCommentsAux true rest
  | false, c :: rest => c :: stripLineCommentsAux false rest
  | true, '\n' :: rest => '\n' :: stripLineCommentsAux false rest
  | true, '\r' :: rest => '\r' :: stripLineCommentsAux false rest
  | true, _ :: rest => stripLineCommentsAux true rest

def stripLineComments (l : List Char) : List Char :=
  stripLineCommentsAux false l

/-- Drop characters up to and including the first `*/`; `none` when no
closing `*/` exists (then the lazy regex `\/\*[\s\S]*?\*\//g` has no match
starting at this opener, nor anywhere later). -/
def dropThroughClose : List Char → Option (List Char)
  | [] => none
  | c :: rest =>
    if c = '*' ∧ rest.head? = some '/' then some rest.tail
    else dropThroughClose rest

/-- Fuel-indexed scanner for the block-comment replacement.  Every
recursive call strictly shrinks the text, so fuel `l.length` is always
sufficient and the fuel-exhausted branch is unreachable. -/
def stripBlockAux : Nat → List Char → List Char
  | 0, l => l
  | _ + 1, [] => []
  | fuel + 1, '/' :: '*' :: rest =>
    (match dropThroughClose rest with
     | some rest2 => stripBlockAux fuel rest2
     | none => '/' :: '*' :: rest)
  | fuel + 1, c :: rest => c :: stripBlockAux fuel rest

def stripBlockComments (l : List Char) : List Char :=
  stripBlockAux l.length l

/-- The comment-stripped text `cleaned` of `validateReadOnly`
(`query.ts` lines 125-127). -/
def stripComments (sql : String) : String :=
  ⟨stripBlockComments (stripLineComments sql.data)⟩

/-! ## Case-insensitive whole-word matching (JS `\b(KW)\b` with flag `i`)

`matchKw kw l` consumes the lowercase keyword `kw` from the front of `l`,
comparing case-insensitively, and returns the remainder on success.
`wordHere` additionally checks the two `\b` word boundaries, and
`containsWordFrom` scans every starting position, threading the
previous character for the left boundary. -/

def matchKw : List Char → List Char → Option (List Char)
  | [], l => some l
  | _ :: _, [] => none
  | k :: ks, c :: cs => if c.toLower = k then matchKw ks cs else none

def boundaryOk : Option Char → Bool
  | none => true
  | some c => !isWordChar c

def wordHere (kw : List Char) (prev : Option Char) (l : List Char) : Bool :=
  boundaryOk prev &&
    match matchKw kw l with
    | some rest => boundaryOk rest.head?
    | none => false

def containsWordFrom (kw : List Char) (prev : Option Char) : List Char → Bool
  | [] => false
  | c :: rest => wordHere kw prev (c :: rest) || containsWordFrom kw (some c) rest

/-- `containsWord kw s`: the JS test of the regex `\b(kw)\b` with flag `i`
against `s`, for a nonempty all-lowercase keyword `kw`. -/
def containsWord (kw : String) (s : String) : Bool :=
  containsWordFrom kw.data none s.data

/-! ## validateReadOnly (`query.ts` lines 118-137) -/

/-- The keyword alternatives of the three forbidden-operation regexes of
`validateReadOnly`, in source order, paired with each regex's `source`
text (which the thrown error message reports). -/
def forbiddenGroup1 : List String :=
  ["insert", "update", "delete", "drop", "alter", "create", "truncate",
   "grant", "revoke"]

def forbiddenGroup2 : List String := ["copy"]

def forbiddenGroup3 : List String := ["vacuum", "reindex", "cluster"]

def forbiddenSource1 : String :=
  "\\b(INSERT|UPDATE|DELETE|DROP|ALTER|CREATE|TRUNCATE|GRANT|REVOKE)\\b"

def forbiddenSource2 : String := "\\b(COPY)\\b"

def forbiddenSource3 : String := "\\b(VACUUM|REINDEX|CLUSTER)\\b"

/-- A JS alternation `\b(A|B|...)\b` tested with `i` matches somewhere in
`s` iff one of its alternatives occurs as a case-insensitive whole
word. -/
def groupMatches (kws : List String) (s : String) : Bool :=
  kws.any fun kw => containsWord kw s

def forbiddenMsg (src : String) : String :=
  "Query contains forbidden operation. Only SELECT and read-only queries are allowed. Detected pattern: " ++ src

/-- `validateReadOnly` (`query.ts` lines 118-137): strip comments, then
test the three forbidden regexes in order, throwing on the first match
with a message naming that regex's source. -/
def validateReadOnly (sql : String) : Except String Unit :=
  let cleaned := stripComments sql
  if groupMatches forbiddenGroup1 cleaned then Except.error (forbiddenMsg forbiddenSource1)
  else if groupMatches forbiddenGroup2 cleaned then Except.error (forbiddenMsg forbiddenSource2)
  else if groupMatches forbiddenGroup3 cleaned then Except.error (forbiddenMsg forbiddenSource3)
  else Except.ok ()

/-- The spec's forbidden keyword set: mutation/DDL, bulk-load and
maintenance keywords, as one flat list. -/
def forbiddenKeywords : List String :=
  ["insert", "update", "delete", "drop", "alter", "create", "truncate",
   "grant", "revoke", "copy", "vacuum", "reindex", "cluster"]

/-- Spec-side predicate: the comment-stripped text contains some
forbidden keyword as a case-insensitive whole word. -/
def containsForbiddenKeyword (s : String) : Bool :=
  forbiddenKeywords.any fun kw => containsWord kw s

deriving instance DecidableEq for Except

/-! ## ensureLimit (`query.ts` lines 142-151)

`sql.trim().replace(re1, "")` where `re1` is the pattern `;$` (no `m`
flag): both-ends whitespace trim, then removal of a single trailing
semicolon.  If the result passes the test of `^\s*SELECT` (flag `i`) and
fails the test of `\bLIMIT\b` (flag `i`), the text ` LIMIT <limit>` is
appended; otherwise the trimmed text is returned unchanged. -/

def trimRight (l : List Char) : List Char :=
  (l.reverse.dropWhile isWS).reverse

def trimList (l : List Char) : List Char :=
  trimRight (l.dropWhile isWS)

def stripTrailingSemi (l : List Char) : List Char :=
  if l.getLast? = some ';' then l.dropLast else l

/-- The JS test of `^\s*SELECT` with flag `i`. -/
def regexSelectTest (l : List Char) : Bool :=
  (matchKw "select".data (l.dropWhile isWS)).isSome

def ensureLimitList (l : List Char) (limit : Nat) : List Char :=
  let trimmed := stripTrailingSemi (trimList l)
  if regexSelectTest trimmed && !containsWordFrom "limit".data none trimmed then
    trimmed ++ (" LIMIT " ++ toString limit).data
  else trimmed

def ensureLimit (sql : String) (limit : Nat) : String :=
  ⟨ensureLimitList sql.data limit⟩

/-! Spec-side notions for claim C2, written from the spec's words. -/

/-- The statement text after trailing-whitespace-and-semicolon trimming
(the spec's "trims trailing semicolon and whitespace"). -/
def trimmedStatement (sql : String) : String :=
  ⟨stripTrailingSemi (trimList sql.data)⟩

/-- The statement begins with `SELECT`, case-insensitively. -/
def beginsWithSelect (s : String) : Bool :=
  (matchKw "select".data s.data).isSome

/-- The statement contains the `LIMIT` keyword (case-insensitive whole
word). -/
def containsLimitWord (s : String) : Bool :=
  containsWord "limit" s

/-- `noLeadingWS l`: dropping leading whitespace does nothing. -/
def noLeadingWS (l : List Char) : Prop :=
  l.dropWhile isWS = l

/-! ## The plan tree (EXPLAIN FORMAT JSON output)

A plan node as read by `query.ts` / `optimization.ts`: the fields
`Node Type`, `Relation Name`, `Filter`, `Plan Rows`, `Total Cost`,
`Sort Key`, `Plans`, plus the single-level `Plan` envelope field of the
top-level EXPLAIN object.  Absent or null JSON fields are `none`; row
estimates are integers, costs are rationals standing in for JS floats. -/

inductive PlanNode where
  | mk (nodeType relationName filterExpr : Option String)
       (planRows : Option Int)
       (totalCost : Option ℚ)
       (sortKey : Option (List String))
       (planField : Option PlanNode)
       (plans : List PlanNode)

def PlanNode.nodeType : PlanNode → Option String
  | .mk nt _ _ _ _ _ _ _ => nt

def PlanNode.relationName : PlanNode → Option String
  | .mk _ rn _ _ _ _ _ _ => rn

def PlanNode.filterExpr : PlanNode → Option String
  | .mk _ _ f _ _ _ _ _ => f

def PlanNode.planRows : PlanNode → Option Int
  | .mk _ _ _ pr _ _ _ _ => pr

def PlanNode.totalCost : PlanNode → Option ℚ
  | .mk _ _ _ _ tc _ _ _ => tc

def PlanNode.sortKey : PlanNode → Option (List String)
  | .mk _ _ _ _ _ sk _ _ => sk

def PlanNode.planField : PlanNode → Option PlanNode
  | .mk _ _ _ _ _ _ pl _ => pl

def PlanNode.plans : PlanNode → List PlanNode
  | .mk _ _ _ _ _ _ _ ps => ps

/-- JS template interpolation of a possibly-undefined string value:
`undefined` renders as the string `"undefined"`. -/
def optStr : Option String → String
  | some s => s
  | none => "undefined"

/-! ## extractWarnings (`query.ts` lines 156-202) -/

/-- The three per-node warning rules of `extractWarnings`, applied to the
fields of the (already envelope-unwrapped) node, in source order.  Both
row and cost conditions are strict comparisons; absent values default
to `0` via the JS `?? 0`. -/
def warnFields (nt rn : Option String) (pr : Option Int) (tc : Option ℚ) :
    List String :=
  (if nt = some "Seq Scan" ∧ pr.getD 0 > 10000 then
    ["Sequential scan on \"" ++ optStr rn ++ "\" with ~" ++
      toString (pr.getD 0) ++ " estimated rows. Consider adding an index."]
  else []) ++
  (if nt = some "Nested Loop" ∧ pr.getD 0 > 50000 then
    ["Nested Loop join producing ~" ++ toString (pr.getD 0) ++
      " rows. This may be slow – consider restructuring the query or adding indexes."]
  else []) ++
  (if (nt = some "Sort" ∨ nt = some "Hash") ∧ tc.getD 0 > 10000 then
    ["High-cost " ++ optStr nt ++ " operation (cost: " ++ toString (tc.getD 0) ++
      "). May benefit from more work_mem or query restructuring."]
  else [])

mutual

/-- `extractWarnings` (`query.ts` lines 156-202): at every visited node
the single-level `Plan` envelope is unwrapped (`plan["Plan"] ?? plan`)
before the fields are read, then the per-node rules fire and the walk
recurses into the unwrapped node's `Plans` children. -/
def extractWarnings : PlanNode → List String
  | .mk _ _ _ _ _ _ (some (.mk nt2 rn2 _ pr2 tc2 _ _ plans2)) _ =>
      warnFields nt2 rn2 pr2 tc2 ++ extractWarningsList plans2
  | .mk nt rn _ pr tc _ none plans =>
      warnFields nt rn pr tc ++ extractWarningsList plans

def extractWarningsList : List PlanNode → List String
  | [] => []
  | n :: rest => extractWarnings n ++ extractWarningsList rest

end

mutual

/-- Spec-side traversal for claim C3: a pure depth-first pre-order walk
that applies the warning rule table at each node and recurses into every
child regardless of whether the node matched, flattening everything into
one ordered sequence.  (The claim describes plain plan trees; the
envelope field plays no role here.) -/
def specWarnings : PlanNode → List String
  | .mk nt rn _ pr tc _ _ plans => warnFields nt rn pr tc ++ specWarningsList plans

def specWarningsList : List PlanNode → List String
  | [] => []
  | n :: rest => specWarnings n ++ specWarningsList rest

end

mutual

/-- No node of the tree carries a `Plan` envelope field (the shape of
every real plan tree below the top-level EXPLAIN object). -/
def envelopeFree : PlanNode → Bool
  | .mk _ _ _ _ _ _ (some _) _ => false
  | .mk _ _ _ _ _ _ none plans => envelopeFreeList plans

def envelopeFreeList : List PlanNode → Bool
  | [] => true
  | n :: rest => envelopeFree n && envelopeFreeList rest

end
/-! ## extractColumnsFromFilter (`optimization.ts` lines 319-331)

The JS loop `while ((match = regex.exec(filter)) !== null)` over the
global regex `\((\w+)\s*[=<>!]+`: at each `(` the scanner greedily takes
word characters (at least one), optional whitespace, and at least one
comparison-operator character; on success the captured identifier is
appended unless already present and scanning resumes after the match;
on failure scanning resumes right after the `(`. -/

def isOpChar (c : Char) : Bool :=
  c = '=' || c = '<' || c = '>' || c = '!'

def tryColMatch (l : List Char) : Option (String × List Char) :=
  let w := l.takeWhile isWordChar
  if w.isEmpty then none
  else
    let r2 := (l.dropWhile isWordChar).dropWhile isWS
    if (r2.takeWhile isOpChar).isEmpty then none
    else some (⟨w⟩, r2.dropWhile isOpChar)

/-- Fuel-indexed scanner; every step strictly shrinks the text, so fuel
`l.length` is always sufficient and the fuel-exhausted branch is
unreachable. -/
def extractColsAux : Nat → List Char → List String → List String
  | 0, _, acc => acc
  | _ + 1, [], acc => acc
  | fuel + 1, c :: rest, acc =>
    if c = '(' then
      match tryColMatch rest with
      | some (col, rem) =>
        extractColsAux fuel rem (if col ∈ acc then acc else acc ++ [col])
      | none => extractColsAux fuel rest acc
    else extractColsAux fuel rest acc

def extractColumnsFromFilter (f : String) : List String :=
  extractColsAux f.data.length f.data []

/-! ## Sort-key column derivation (`optimization.ts` lines 292-294)

`k.replace(re1, "").replace(re2, "")` where `re1` is the pattern `.*\.`
(greedy, no flags: removes everything from the start of the first
dot-containing line through that line's last dot) and `re2` is the
pattern ` (ASC|DESC)` with flag `i` (removes the first occurrence of a
space followed by `ASC` or `DESC`, case-insensitively, anywhere). -/

def isLineTerm (c : Char) : Bool :=
  c = '\n' || c = '\r'

def lineHasDot : List Char → Bool
  | [] => false
  | c :: r => if c = '.' then true else if isLineTerm c then false else lineHasDot r

/-- Drop everything up to and including the last dot of the current
(dot-containing) line. -/
def dropLastDotLine : List Char → List Char
  | [] => []
  | c :: r => if c = '.' ∧ lineHasDot r = false then r else dropLastDotLine r

def jsReplaceDotStar : List Char → List Char
  | [] => []
  | c :: r =>
    if lineHasDot (c :: r) then dropLastDotLine (c :: r)
    else c :: jsReplaceDotStar r

/-- Remove the first occurrence of ` ASC` or ` DESC` (case-insensitive,
alternation tried in that order), leaving the remainder untouched. -/
def stripDirMarker : List Char → List Char
  | [] => []
  | c :: r =>
    if c = ' ' then
      match matchKw "asc".data r with
      | some rest => rest
      | none =>
        match matchKw "desc".data r with
        | some rest => rest
        | none => c :: stripDirMarker r
    else c :: stripDirMarker r

def stripSortKey (k : String) : String :=
  ⟨stripDirMarker (jsReplaceDotStar k.data)⟩

/-! ## suggestIndexes / analyzePlanNode (`optimization.ts` lines 37-62, 256-314) -/

structure IndexSuggestion where
  table : Option String
  columns : List String
  reason : String
  impact : String
  createStatement : String
deriving DecidableEq

/-- Rule A (`optimization.ts` lines 269-286): sequential scan with a
truthy filter and more than 1000 estimated rows.  The `table` field
receives the node's possibly-absent `Relation Name`; inside the
interpolated strings an absent name renders as `"undefined"`. -/
def ruleA (nt rn f : Option String) (pr : Option Int) (schema : String) :
    List IndexSuggestion :=
  match nt, f with
  | some "Seq Scan", some flt =>
    if flt ≠ "" ∧ pr.getD 0 > 1000 then
      let cols := extractColumnsFromFilter flt
      if cols ≠ [] then
        [{ table := rn
           columns := cols
           reason := "Sequential scan with filter on " ++
             String.intercalate ", " cols ++ " scanning ~" ++
             toString (pr.getD 0) ++ " rows"
           impact :=
             if pr.getD 0 > 100000 then "high"
             else if pr.getD 0 > 10000 then "medium"
             else "low"
           createStatement := "CREATE INDEX idx_" ++ optStr rn ++ "_" ++
             String.intercalate "_" cols ++ " ON " ++ schema ++ "." ++
             optStr rn ++ " (" ++ String.intercalate ", " cols ++ ");" }]
      else []
    else []
  | _, _ => []

/-- Rule B (`optimization.ts` lines 289-305): sort node with sort keys
and more than 5000 estimated rows; the create statement is a
commented-out template with a `<table>` placeholder. -/
def ruleB (nt rn : Option String) (pr : Option Int) (sk : Option (List String))
    (schema : String) : List IndexSuggestion :=
  match nt, sk with
  | some "Sort", some keys =>
    let cols := keys.map stripSortKey
    if cols ≠ [] ∧ pr.getD 0 > 5000 then
      [{ table := some (rn.getD "unknown")
         columns := cols
         reason := "Sort operation on " ++ String.intercalate ", " cols ++
           " with ~" ++ toString (pr.getD 0) ++
           " rows. An index could eliminate the sort."
         impact := if pr.getD 0 > 50000 then "high" else "medium"
         createStatement := "-- Consider adding an index to support this sort:\n-- CREATE INDEX idx_sort_" ++
           String.intercalate "_" cols ++ " ON " ++ schema ++ ".<table> (" ++
           String.intercalate ", " cols ++ ");" }]
    else []
  | _, _ => []

mutual

/-- `analyzePlanNode` (`optimization.ts` lines 256-314): reads the
node's fields directly — no envelope unwrapping — applies rules A and B,
and recurses into the `Plans` children. -/
def analyzePlanNode : PlanNode → String → List IndexSuggestion
  | .mk nt rn f pr _ sk _ plans, schema =>
    ruleA nt rn f pr schema ++ ruleB nt rn pr sk schema ++
      analyzePlanList plans schema

def analyzePlanList : List PlanNode → String → List IndexSuggestion
  | [], _ => []
  | n :: rest, schema => analyzePlanNode n schema ++ analyzePlanList rest schema

end

/-- The pure part of `suggestIndexes` (`optimization.ts` lines 54-59):
the parsed top-level plan object is unwrapped once
(`plan["Plan"] ?? plan`) and handed to `analyzePlanNode`. -/
def suggestIndexesPure (plan : PlanNode) (schema : String) :
    List IndexSuggestion :=
  analyzePlanNode (plan.planField.getD plan) schema

/-! ## queryReadOnly transaction discipline (`database.ts` lines 93-111)

The method body is
`connect; try { BEGIN; execute; COMMIT } catch { ROLLBACK; rethrow }
finally { release }`.  We embed its control flow as a function from a
failure oracle (which of BEGIN / execute / COMMIT rejects) to the exact
sequence of commands issued on the pooled client together with the
success flag of the overall call.  ROLLBACK and `release` are the
commands the code *issues* on those paths; the trace starts after the
client has been acquired from the pool (before that point there is no
connection to release). -/

inductive DbCmd where
  | beginCmd
  | execCmd
  | commitCmd
  | rollbackCmd
  | releaseCmd
deriving DecidableEq

structure FailureOracle where
  beginFails : Bool
  execFails : Bool
  commitFails : Bool

def queryReadOnlyTrace (o : FailureOracle) : List DbCmd × Bool :=
  if o.beginFails then
    ([.beginCmd, .rollbackCmd, .releaseCmd], false)
  else if o.execFails then
    ([.beginCmd, .execCmd, .rollbackCmd, .releaseCmd], false)
  else if o.commitFails then
    ([.beginCmd, .execCmd, .commitCmd, .rollbackCmd, .releaseCmd], false)
  else
    ([.beginCmd, .execCmd, .commitCmd, .releaseCmd], true)

/-- A transaction is left open by a trace iff the last
transaction-control command issued is a `BEGIN` with no subsequent
`COMMIT`/`ROLLBACK`. -/
def txnOpenAfter (tr : List DbCmd) : Bool :=
  tr.foldl
    (fun st c =>
      match c with
      | .beginCmd => true
      | .commitCmd => false
      | .rollbackCmd => false
      | _ => st)
    false

/-! ## getDatabaseHealth merge (`optimization.ts` lines 206-251)

The four concurrent sub-queries are external inputs; we embed the pure
merge of their row sets into the health report.  The cache sub-query
yields at most one row whose `cache_hit_ratio` column (Lean field name
`cacheHitRatio`) is nullable (`Option String`); the JS conditional
`cacheResult.rows[0]?.cache_hit_ratio ? value% : "N/A"` treats a missing
row, a SQL NULL and the (unreachable) empty string as falsy. -/

structure ConnRow where
  active : String
  idle : String
  max : String
deriving DecidableEq

structure TxRow where
  total_commits : String
  total_rollbacks : String
deriving DecidableEq

structure HealthReport where
  database_size : Option String
  connections : Option ConnRow
  cacheHitRatio : String
  transactions : Option TxRow
deriving DecidableEq

def getDatabaseHealthPure (sizeRows : List String) (connRows : List ConnRow)
    (cacheRows : List (Option String)) (txRows : List TxRow) : HealthReport :=
  { database_size := sizeRows.head?
    connections := connRows.head?
    cacheHitRatio :=
      match cacheRows.head? with
      | some (some s) => if s ≠ "" then s ++ "%" else "N/A"
      | _ => "N/A"
    transactions := txRows.head? }

/-! ## DatabaseManager connection state (`database.ts` lines 33-134)

The manager's mutable state is the pair of nullable fields
`pool` / `config`.  Pool handles are modelled by `Nat` identifiers; the
oracle says whether `pool.end()` (inside `disconnect`) or the test
`pool.connect()` (at the end of `connect`) rejects.  Each operation
returns the new state and a success flag (`false` = the method threw). -/

structure ConnectionConfig where
  host : String
  port : Nat
  database : String
  user : String
  password : String
  ssl : Option Bool
deriving DecidableEq

structure ManagerState where
  pool : Option Nat
  config : Option ConnectionConfig
deriving DecidableEq

def initialState : ManagerState := ⟨none, none⟩

structure ConnectOracle where
  endFails : Bool
  testFails : Bool

/-- `disconnect` (`database.ts` lines 68-74): ends and clears the pool
when present (a rejected `end()` propagates before the fields are
cleared); a no-op when already disconnected. -/
def disconnect (s : ManagerState) (endFails : Bool) : ManagerState × Bool :=
  match s.pool with
  | some _ => if endFails then (s, false) else (⟨none, none⟩, true)
  | none => (s, true)

/-- `connect` (`database.ts` lines 40-63): tears down any existing pool
via `disconnect` (aborting if that throws), then installs the new pool
and configuration, then tests one client connection — a failing test
propagates *after* both fields are already set. -/
def connect (s : ManagerState) (c : ConnectionConfig) (h : Nat)
    (o : ConnectOracle) : ManagerState × Bool :=
  match s.pool with
  | some _ =>
    match disconnect s o.endFails with
    | (s1, false) => (s1, false)
    | (_, true) => (⟨some h, some c⟩, !o.testFails)
  | none => (⟨some h, some c⟩, !o.testFails)

/-- `queryReadOnly` / `query` state effect: `ensureConnected` throws when
the pool is absent; neither method mutates `pool` or `config`. -/
def queryReadOnlyOp (s : ManagerState) : ManagerState × Bool :=
  (s, s.pool.isSome)

def queryOp (s : ManagerState) : ManagerState × Bool :=
  (s, s.pool.isSome)

def isConnected (s : ManagerState) : Bool :=
  s.pool.isSome

def getConnectionInfo (s : ManagerState) : Option ConnectionConfig :=
  s.config

/-- The claimed invariant: the pool handle and the stored configuration
are both null or both non-null. -/
def ManagerInv (s : ManagerState) : Prop :=
  s.pool = none ↔ s.config = none

/-! ## Verified properties -/
theorem forbiddenKeywords_eq :
    forbiddenKeywords = forbiddenGroup1 ++ forbiddenGroup2 ++ forbiddenGroup3 := rfl

theorem containsForbiddenKeyword_eq (s : String) :
    containsForbiddenKeyword s =
      (groupMatches forbiddenGroup1 s || groupMatches forbiddenGroup2 s ||
        groupMatches forbiddenGroup3 s) := by
  simp [containsForbiddenKeyword, forbiddenKeywords_eq, groupMatches, List.any_append,
    Bool.or_assoc]

/-- Claim C1: `validateReadOnly sql` fails iff the comment-stripped text
of `sql` contains a forbidden keyword as a case-insensitive whole word,
and on failure the error message names the (first) matched pattern. -/
theorem validateReadOnly_fails_iff_forbidden (sql : String) :
    (¬ validateReadOnly sql = Except.ok () ↔
      containsForbiddenKeyword (stripComments sql) = true)
    ∧ ∀ e, validateReadOnly sql = Except.error e →
        ∃ src kws,
          ((src, kws) = (forbiddenSource1, forbiddenGroup1) ∨
           (src, kws) = (forbiddenSource2, forbiddenGroup2) ∨
           (src, kws) = (forbiddenSource3, forbiddenGroup3)) ∧
          groupMatches kws (stripComments sql) = true ∧ e = forbiddenMsg src := by
  by_cases h1 : groupMatches forbiddenGroup1 (stripComments sql) = true
  · refine ⟨?_, ?_⟩
    · simp [validateReadOnly, h1, containsForbiddenKeyword_eq]
    · intro e he
      simp [validateReadOnly, h1] at he
      exact ⟨forbiddenSource1, forbiddenGroup1, Or.inl rfl, h1, he.symm⟩
  · by_cases h2 : groupMatches forbiddenGroup2 (stripComments sql) = true
    · refine ⟨?_, ?_⟩
      · simp [validateReadOnly, h1, h2, containsForbiddenKeyword_eq]
      · intro e he
        simp [validateReadOnly, h1, h2] at he
        exact ⟨forbiddenSource2, forbiddenGroup2, Or.inr (Or.inl rfl), h2, he.symm⟩
    · by_cases h3 : groupMatches forbiddenGroup3 (stripComments sql) = true
      · refine ⟨?_, ?_⟩
        · simp [validateReadOnly, h1, h2, h3, containsForbiddenKeyword_eq]
        · intro e he
          simp [validateReadOnly, h1, h2, h3] at he
          exact ⟨forbiddenSource3, forbiddenGroup3, Or.inr (Or.inr rfl), h3, he.symm⟩
      · refine ⟨?_, ?_⟩
        · simp [validateReadOnly, h1, h2, h3, containsForbiddenKeyword_eq]
        · intro e he
          simp [validateReadOnly, h1, h2, h3] at he

/-- Witness for C1 at the concrete input `"DROP TABLE t"`, discharging
the error hypothesis of the second conjunct by evaluation. -/
theorem validateReadOnly_fails_witness :
    ∃ src kws,
      ((src, kws) = (forbiddenSource1, forbiddenGroup1) ∨
       (src, kws) = (forbiddenSource2, forbiddenGroup2) ∨
       (src, kws) = (forbiddenSource3, forbiddenGroup3)) ∧
      groupMatches kws (stripComments "DROP TABLE t") = true ∧
      forbiddenMsg forbiddenSource1 = forbiddenMsg src :=
  (validateReadOnly_fails_iff_forbidden "DROP TABLE t").2
    (forbiddenMsg forbiddenSource1) (by decide)

theorem dropWhile_idem (p : Char → Bool) (l : List Char) :
    (l.dropWhile p).dropWhile p = l.dropWhile p := by
  induction l with
  | nil => simp
  | cons c rest ih => by_cases h : p c <;> simp [List.dropWhile_cons, h, ih]

theorem noLeadingWS_mono {l m : List Char} (hm : noLeadingWS m)
    (hp : l <+: m) : noLeadingWS l := by
  cases l with
  | nil => rfl
  | cons c t =>
    obtain ⟨s, hs⟩ := hp
    have hc : isWS c = false := by
      by_contra hcc
      have hc2 : isWS c = true := by
        cases hcw : isWS c
        · exact absurd hcw hcc
        · rfl
      have : m.dropWhile isWS = (t ++ s).dropWhile isWS := by
        rw [← hs]
        simp [List.dropWhile_cons, hc2]
      have hlen : m.length ≤ (t ++ s).length := by
        rw [hm] at this
        calc m.length = ((t ++ s).dropWhile isWS).length := by rw [this]
        _ ≤ (t ++ s).length := (List.dropWhile_suffix isWS).length_le
      rw [← hs] at hlen
      simp at hlen
    simp [noLeadingWS, List.dropWhile_cons, hc]

theorem trimRight_prefixOf (l : List Char) : trimRight l <+: l := by
  have h := List.dropWhile_suffix (l := l.reverse) (p := isWS)
  have h2 : (l.reverse.dropWhile isWS).reverse <+: l.reverse.reverse :=
    List.reverse_prefix.mpr (by simpa using h)
  simpa [trimRight] using h2

theorem stripTrailingSemi_prefixOf (l : List Char) : stripTrailingSemi l <+: l := by
  unfold stripTrailingSemi
  split
  · exact List.dropLast_prefix l
  · exact List.prefix_refl l

theorem noLeadingWS_trimList (l : List Char) : noLeadingWS (trimList l) :=
  noLeadingWS_mono (dropWhile_idem isWS l) (trimRight_prefixOf _)

theorem noLeadingWS_trimmed (l : List Char) :
    noLeadingWS (stripTrailingSemi (trimList l)) :=
  noLeadingWS_mono (noLeadingWS_trimList l) (stripTrailingSemi_prefixOf _)

/-- Claim C2: `ensureLimit` trims trailing whitespace and a trailing
semicolon; a statement beginning with `SELECT` (case-insensitively) with
no `LIMIT` keyword gets exactly ` LIMIT <limit>` appended; every other
statement is returned unmodified (modulo the trimming). -/
theorem ensureLimit_spec (sql : String) (limit : Nat) :
    ensureLimit sql limit =
      if beginsWithSelect (trimmedStatement sql) = true ∧
          containsLimitWord (trimmedStatement sql) = false then
        trimmedStatement sql ++ " LIMIT " ++ toString limit
      else
        trimmedStatement sql := by
  have hws : (stripTrailingSemi (trimList sql.data)).dropWhile isWS =
      stripTrailingSemi (trimList sql.data) := noLeadingWS_trimmed sql.data
  show (⟨ensureLimitList sql.data limit⟩ : String) = _
  rw [ensureLimitList]
  simp only [regexSelectTest, hws]
  by_cases h1 : (matchKw "select".data (stripTrailingSemi (trimList sql.data))).isSome
  · by_cases h2 :
        containsWordFrom "limit".data none (stripTrailingSemi (trimList sql.data))
    · simp [h1, h2, beginsWithSelect, containsLimitWord, containsWord,
        trimmedStatement]
    · simp [h1, h2, beginsWithSelect, containsLimitWord, containsWord,
        trimmedStatement]
      apply String.ext
      simp [String.data_append]
  · simp [h1, beginsWithSelect, containsLimitWord, containsWord, trimmedStatement]

/-! ## Idempotence facts for claim C9 -/

theorem head?_dropWhile_not_ws {l : List Char} {c : Char}
    (h : (l.dropWhile isWS).head? = some c) : isWS c = false := by
  induction l with
  | nil => simp [List.dropWhile] at h
  | cons a rest ih =>
    by_cases ha : isWS a
    · rw [List.dropWhile_cons, if_pos ha] at h
      exact ih h
    · rw [List.dropWhile_cons, if_neg ha] at h
      have hac : a = c := by injection h
      rw [← hac]
      cases hx : isWS a
      · rfl
      · exact absurd hx ha

theorem getLast?_trimRight_not_ws {l : List Char} {c : Char}
    (h : (trimRight l).getLast? = some c) : isWS c = false := by
  apply head?_dropWhile_not_ws (l := l.reverse)
  rw [← List.head?_reverse] at h
  simpa [trimRight] using h

theorem getLast?_trimList_not_ws {l : List Char} {c : Char}
    (h : (trimList l).getLast? = some c) : isWS c = false :=
  getLast?_trimRight_not_ws h

theorem trimList_eq_self {l : List Char}
    (h1 : l.dropWhile isWS = l)
    (h2 : ∀ c, l.getLast? = some c → isWS c = false) :
    trimList l = l := by
  unfold trimList trimRight
  rw [h1]
  cases hl : l.reverse with
  | nil =>
    have : l = [] := by simpa using congrArg List.reverse hl
    simp [hl, this]
  | cons c rest =>
    have hc : l.getLast? = some c := by
      rw [← List.head?_reverse, hl]
      rfl
    have hcw := h2 c hc
    have hl2 : l = (c :: rest).reverse := by
      simpa using congrArg List.reverse hl
    simp [List.dropWhile_cons, hcw]
    rw [hl2]
    simp

theorem matchKw_append_isSome {kw t : List Char}
    (h : (matchKw kw t).isSome = true) (s : List Char) :
    (matchKw kw (t ++ s)).isSome = true := by
  induction kw generalizing t with
  | nil => simp [matchKw]
  | cons k ks ih =>
    cases t with
    | nil => simp [matchKw] at h
    | cons c cs =>
      rw [List.cons_append]
      simp only [matchKw] at h ⊢
      split at h
      · rename_i hc
        rw [if_pos hc]
        exact ih h
      · simp at h

theorem matchSelect_head_not_ws {c : Char} {cs : List Char}
    (h : (matchKw "select".data (c :: cs)).isSome = true) : isWS c = false := by
  have hsel : "select".data = ['s', 'e', 'l', 'e', 'c', 't'] := rfl
  rw [hsel] at h
  simp only [matchKw] at h
  split at h
  · rename_i hc
    by_contra hw
    have hw2 : isWS c = true := by
      cases hx : isWS c
      · exact absurd hx hw
      · rfl
    simp only [isWS, Bool.or_eq_true, decide_eq_true_eq] at hw2
    rcases hw2 with ((((h1 | h1) | h1) | h1) | h1) | h1 <;> subst h1 <;>
      exact absurd hc (by decide)
  · simp at h

/-! Every character that `Nat.repr` produces is a decimal digit, and the
rendered numeral is nonempty; hence appending ` LIMIT <n>` never creates
trailing whitespace or a trailing semicolon. -/

theorem digitChar_isDigit {k : Nat} (h : k < 10) :
    (Nat.digitChar k).isDigit = true := by
  interval_cases k <;> decide

theorem toDigitsCore_all_digit :
    ∀ (fuel n : Nat) (ds : List Char),
      (∀ c ∈ ds, c.isDigit = true) →
      ∀ c ∈ Nat.toDigitsCore 10 fuel n ds, c.isDigit = true := by
  intro fuel
  induction fuel with
  | zero => intro n ds hds c hc; exact hds c hc
  | succ f ih =>
    intro n ds hds c hc
    rw [Nat.toDigitsCore] at hc
    have hd : (Nat.digitChar (n % 10)).isDigit = true :=
      digitChar_isDigit (Nat.mod_lt _ (by omega))
    split at hc
    · rcases List.mem_cons.mp hc with h | h
      · subst h; exact hd
      · exact hds c h
    · refine ih _ _ ?_ c hc
      intro d hdm
      rcases List.mem_cons.mp hdm with h | h
      · subst h; exact hd
      · exact hds d h

theorem toDigitsCore_length :
    ∀ (fuel n : Nat) (ds : List Char), fuel ≠ 0 →
      ds.length + 1 ≤ (Nat.toDigitsCore 10 fuel n ds).length := by
  intro fuel
  induction fuel with
  | zero => intro n ds h; exact absurd rfl h
  | succ f ih =>
    intro n ds _
    rw [Nat.toDigitsCore]
    split
    · simp
    · by_cases hf : f = 0
      · subst hf
        rw [Nat.toDigitsCore]
        simp
      · have := ih (n / 10) (Nat.digitChar (n % 10) :: ds) hf
        simp only [List.length_cons] at this
        omega

theorem natRepr_all_digit (n : Nat) :
    ∀ c ∈ (Nat.repr n).data, c.isDigit = true := by
  intro c hc
  have : (Nat.repr n).data = Nat.toDigits 10 n := rfl
  rw [this, Nat.toDigits] at hc
  exact toDigitsCore_all_digit (n + 1) n [] (by simp) c hc

theorem natRepr_ne_nil (n : Nat) : (Nat.repr n).data ≠ [] := by
  have : (Nat.repr n).data = Nat.toDigits 10 n := rfl
  rw [this, Nat.toDigits]
  have := toDigitsCore_length (n + 1) n [] (by omega)
  intro h
  rw [h] at this
  simp at this

theorem isDigit_not_ws {c : Char} (h : c.isDigit = true) : isWS c = false := by
  cases hx : isWS c
  · rfl
  · simp only [isWS, Bool.or_eq_true, decide_eq_true_eq] at hx
    rcases hx with ((((h1 | h1) | h1) | h1) | h1) | h1 <;> subst h1 <;>
      exact absurd h (by decide)

theorem isDigit_ne_semi {c : Char} (h : c.isDigit = true) : c ≠ ';' := by
  intro he
  subst he
  exact absurd h (by decide)

theorem containsWordFrom_limit_marker (rest : List Char) :
    ∀ (t : List Char) (prev : Option Char),
      containsWordFrom "limit".data prev
        (t ++ ' ' :: 'L' :: 'I' :: 'M' :: 'I' :: 'T' :: ' ' :: rest) = true := by
  intro t
  induction t with
  | nil =>
    intro prev
    simp only [List.nil_append]
    rw [containsWordFrom]
    have h2 : containsWordFrom "limit".data (some ' ')
        ('L' :: 'I' :: 'M' :: 'I' :: 'T' :: ' ' :: rest) = true := by
      rw [containsWordFrom]
      have hw : wordHere "limit".data (some ' ')
          ('L' :: 'I' :: 'M' :: 'I' :: 'T' :: ' ' :: rest) = true := by
        simp +decide [wordHere, matchKw, boundaryOk, isWordChar]
      simp [hw]
    simp [h2]
  | cons c t2 ih =>
    intro prev
    rw [List.cons_append, containsWordFrom]
    simp [ih (some c)]

theorem ensureLimitList_idem (l : List Char) (limit : Nat)
    (h : (trimList l).getLast? ≠ some ';') :
    ensureLimitList (ensureLimitList l limit) limit = ensureLimitList l limit := by
  have hsemi : stripTrailingSemi (trimList l) = trimList l := by
    unfold stripTrailingSemi
    rw [if_neg h]
  have hhead : (trimList l).dropWhile isWS = trimList l := noLeadingWS_trimList l
  have hlast : ∀ c, (trimList l).getLast? = some c → isWS c = false :=
    fun _ hc => getLast?_trimList_not_ws hc
  have htrim : trimList (trimList l) = trimList l := trimList_eq_self hhead hlast
  by_cases hcond : (regexSelectTest (trimList l) &&
      !containsWordFrom "limit".data none (trimList l)) = true
  · have h1 : ensureLimitList l limit =
        trimList l ++ (" LIMIT " ++ toString limit).data := by
      rw [ensureLimitList, hsemi, if_pos hcond]
    obtain ⟨hsel, hnl⟩ := Bool.and_eq_true_iff.mp hcond
    have hmatch : (matchKw "select".data (trimList l)).isSome = true := by
      rw [regexSelectTest, hhead] at hsel
      exact hsel
    have hrep : (toString limit).data = (Nat.repr limit).data := rfl
    obtain ⟨d, hd⟩ : ∃ d, ((toString limit).data).getLast? = some d := by
      have := List.getLast?_isSome.mpr (hrep ▸ natRepr_ne_nil limit)
      exact Option.isSome_iff_exists.mp this
    have hddig : d.isDigit = true := by
      refine natRepr_all_digit limit d ?_
      rw [← hrep]
      exact List.mem_of_mem_getLast? hd
    have hsuffix : (" LIMIT " ++ toString limit).data =
        ' ' :: 'L' :: 'I' :: 'M' :: 'I' :: 'T' :: ' ' :: (toString limit).data := by
      rw [String.data_append]
      rfl
    have hlast2 : (trimList l ++ (" LIMIT " ++ toString limit).data).getLast? = some d := by
      rw [List.getLast?_append_of_ne_nil]
      · rw [String.data_append, List.getLast?_append_of_ne_nil]
        · exact hd
        · rw [hrep]
          exact natRepr_ne_nil limit
      · rw [hsuffix]
        simp
    cases hcase : trimList l with
    | nil =>
      rw [hcase] at hmatch
      simp [matchKw, show "select".data = ['s', 'e', 'l', 'e', 'c', 't'] from rfl] at hmatch
    | cons c cs =>
      have hcw : isWS c = false := by
        rw [hcase] at hmatch
        exact matchSelect_head_not_ws hmatch
      have hhead2 : ((c :: cs) ++ (" LIMIT " ++ toString limit).data).dropWhile isWS =
          (c :: cs) ++ (" LIMIT " ++ toString limit).data := by
        rw [List.cons_append, List.dropWhile_cons, hcw]
        simp
      have hlast2c : ∀ e, ((c :: cs) ++ (" LIMIT " ++ toString limit).data).getLast? =
          some e → isWS e = false := by
        intro e he
        rw [← hcase] at he
        rw [hlast2] at he
        injection he with he
        rw [← he]
        exact isDigit_not_ws hddig
      have htrim2 : trimList ((c :: cs) ++ (" LIMIT " ++ toString limit).data) =
          (c :: cs) ++ (" LIMIT " ++ toString limit).data :=
        trimList_eq_self hhead2 hlast2c
      have hsemi2 : stripTrailingSemi ((c :: cs) ++ (" LIMIT " ++ toString limit).data) =
          (c :: cs) ++ (" LIMIT " ++ toString limit).data := by
        unfold stripTrailingSemi
        rw [if_neg]
        rw [← hcase, hlast2]
        intro he
        injection he with he
        exact isDigit_ne_semi hddig he
      have hsel2 : regexSelectTest ((c :: cs) ++ (" LIMIT " ++ toString limit).data) = true := by
        rw [regexSelectTest, hhead2]
        rw [hcase] at hmatch
        exact matchKw_append_isSome hmatch _
      have hnl2 : containsWordFrom "limit".data none
          ((c :: cs) ++ (" LIMIT " ++ toString limit).data) = true := by
        rw [hsuffix]
        exact containsWordFrom_limit_marker _ _ none
      rw [h1, hcase]
      rw [ensureLimitList, htrim2, hsemi2, hsel2, hnl2]
      simp
  · have h1 : ensureLimitList l limit = trimList l := by
      rw [ensureLimitList, hsemi, if_neg hcond]
    rw [h1, ensureLimitList, htrim, hsemi, if_neg hcond]

/-- Claim C9 counterexample: `ensureLimit` is not idempotent.  On
`"SELECT 1 LIMIT 1 ;"` the first application trims the semicolon and
leaves a trailing space (`"SELECT 1 LIMIT 1 "`), which the second
application then trims away. -/
theorem ensureLimit_not_idempotent :
    ensureLimit (ensureLimit "SELECT 1 LIMIT 1 ;" 5) 5 ≠
      ensureLimit "SELECT 1 LIMIT 1 ;" 5 := by
  decide

/-- Claim C9, amended: `ensureLimit` is idempotent on every input whose
whitespace-trimmed text does not end in a semicolon (removing a trailing
semicolon is what can expose fresh trailing whitespace, the sole source
of non-idempotence). -/
theorem ensureLimit_idem (sql : String) (limit : Nat)
    (h : (trimList sql.data).getLast? ≠ some ';') :
    ensureLimit (ensureLimit sql limit) limit = ensureLimit sql limit := by
  have : (ensureLimit sql limit).data = ensureLimitList sql.data limit := rfl
  show (⟨ensureLimitList (ensureLimit sql limit).data limit⟩ : String) = _
  rw [this, ensureLimitList_idem sql.data limit h]
  rfl

/-- Witness for the amended C9 at the concrete input `"SELECT 1"`. -/
theorem ensureLimit_idem_witness :
    ensureLimit (ensureLimit "SELECT 1" 100) 100 = ensureLimit "SELECT 1" 100 :=
  ensureLimit_idem "SELECT 1" 100 (by decide)

mutual

theorem extractWarnings_eq_spec (p : PlanNode) (h : envelopeFree p = true) :
    extractWarnings p = specWarnings p := by
  cases p with
  | mk nt rn f pr tc sk pl plans =>
    cases pl with
    | some q =>
      rw [envelopeFree] at h
      exact absurd h (by simp)
    | none =>
      rw [envelopeFree] at h
      rw [extractWarnings, specWarnings, extractWarningsList_eq_spec plans h]

theorem extractWarningsList_eq_spec (l : List PlanNode)
    (h : envelopeFreeList l = true) :
    extractWarningsList l = specWarningsList l := by
  cases l with
  | nil => rw [extractWarningsList, specWarningsList]
  | cons n rest =>
    rw [envelopeFreeList, Bool.and_eq_true_iff] at h
    rw [extractWarningsList, specWarningsList,
      extractWarnings_eq_spec n h.1, extractWarningsList_eq_spec rest h.2]

end

/-- Claim C3: `extractWarnings` is a pure depth-first pre-order walk that
recurses into every child and flattens the per-node warnings in traversal
order (it agrees with the spec-side walk on every envelope-free tree);
at a Seq Scan node the row threshold is strict: no warning at 10,000
estimated rows, and at 10,001 exactly the warning naming the relation
and the `~10001` estimate. -/
theorem extractWarnings_claim :
    (∀ p, envelopeFree p = true → extractWarnings p = specWarnings p)
    ∧ (∀ (rn f : Option String) (sk : Option (List String)) (rows : Int),
        rows ≤ 10000 →
        extractWarnings (.mk (some "Seq Scan") rn f (some rows) none sk none []) = [])
    ∧ (∀ rn : String,
        extractWarnings (.mk (some "Seq Scan") (some rn) none (some 10001) none none none []) =
          ["Sequential scan on \"" ++ rn ++
            "\" with ~10001 estimated rows. Consider adding an index."]) := by
  refine ⟨extractWarnings_eq_spec, ?_, ?_⟩
  · intro rn f sk rows hrows
    rw [extractWarnings, extractWarningsList, warnFields]
    rw [if_neg, if_neg, if_neg]
    · simp
    · rintro ⟨hc, -⟩
      exact absurd hc (by decide)
    · rintro ⟨hc, -⟩
      exact absurd hc (by decide)
    · rintro ⟨-, hr⟩
      simp only [Option.getD_some] at hr
      omega
  · intro rn
    rw [extractWarnings, extractWarningsList, warnFields]
    rw [if_pos ⟨rfl, by decide⟩, if_neg, if_neg]
    · simp only [optStr, Option.getD_some, List.append_nil, List.nil_append]
      apply congrArg (fun s => [s])
      apply String.ext
      simp only [String.data_append, List.append_assoc]
      rfl
    · rintro ⟨hc, -⟩
      exact absurd hc (by decide)
    · rintro ⟨hc, -⟩
      exact absurd hc (by decide)

/-- Witness for C3: the envelope-free Seq Scan example tree agrees with
the spec-side walk, and the 10,000-row boundary yields no warning. -/
theorem extractWarnings_claim_witness :
    extractWarnings
        (.mk (some "Seq Scan") (some "users") none (some 15000) none none none
          [.mk (some "Sort") none none (some 10) (some 5) none none []]) =
      specWarnings
        (.mk (some "Seq Scan") (some "users") none (some 15000) none none none
          [.mk (some "Sort") none none (some 10) (some 5) none none []])
    ∧ extractWarnings (.mk (some "Seq Scan") none none (some 10000) none none none []) = [] :=
  ⟨extractWarnings_claim.1 _ rfl,
   extractWarnings_claim.2.1 none none none 10000 (by decide)⟩

theorem extractColsAux_nodup :
    ∀ (fuel : Nat) (l : List Char) (acc : List String),
      acc.Nodup → (extractColsAux fuel l acc).Nodup := by
  intro fuel
  induction fuel with
  | zero => intro l acc h; exact h
  | succ f ih =>
    intro l acc h
    cases l with
    | nil => exact h
    | cons c rest =>
      rw [extractColsAux]
      split
      · cases htc : tryColMatch rest with
        | none =>
          simp only [htc]
          exact ih rest acc h
        | some p =>
          obtain ⟨col, rem⟩ := p
          simp only [htc]
          apply ih
          by_cases hmem : col ∈ acc
          · rw [if_pos hmem]
            exact h
          · rw [if_neg hmem]
            simp [List.nodup_append, h, hmem]
      · exact ih rest acc h

theorem columns_nodup (flt : String) : (extractColumnsFromFilter flt).Nodup :=
  extractColsAux_nodup _ _ _ List.nodup_nil

/-- Claim C4: a Seq Scan node with a (truthy) filter and more than 1000
estimated rows contributes exactly one suggestion whose columns are the
identifiers extracted from the filter by the pattern scanner
(deduplicated — `Nodup` — in first-seen order), whose impact bands are
`high` above 100,000 rows, `medium` above 10,000, else `low`, and whose
create statement is `CREATE INDEX idx_<table>_<cols> ON
<schema>.<table> (<cols>);`; no suggestion is emitted when the pattern
extracts no columns. -/
theorem analyzePlanNode_seqScan_claim
    (rn : Option String) (flt : String) (pr : Int) (tc : Option ℚ)
    (sk : Option (List String)) (pl : Option PlanNode) (plans : List PlanNode)
    (schema : String) (hflt : flt ≠ "") (hpr : pr > 1000) :
    analyzePlanNode (.mk (some "Seq Scan") rn (some flt) (some pr) tc sk pl plans)
        schema =
      (if extractColumnsFromFilter flt = [] then []
       else
        [{ table := rn
           columns := extractColumnsFromFilter flt
           reason := "Sequential scan with filter on " ++
             String.intercalate ", " (extractColumnsFromFilter flt) ++
             " scanning ~" ++ toString pr ++ " rows"
           impact :=
             if pr > 100000 then "high"
             else if pr > 10000 then "medium"
             else "low"
           createStatement := "CREATE INDEX idx_" ++ optStr rn ++ "_" ++
             String.intercalate "_" (extractColumnsFromFilter flt) ++ " ON " ++
             schema ++ "." ++ optStr rn ++ " (" ++
             String.intercalate ", " (extractColumnsFromFilter flt) ++ ");" }]) ++
        analyzePlanList plans schema
      ∧ (extractColumnsFromFilter flt).Nodup := by
  constructor
  · rw [analyzePlanNode]
    have hB : ruleB (some "Seq Scan") rn (some pr) sk schema = [] := by
      cases sk <;> rfl
    rw [hB]
    have hA : ruleA (some "Seq Scan") rn (some flt) (some pr) schema =
        if extractColumnsFromFilter flt = [] then []
        else
          [{ table := rn
             columns := extractColumnsFromFilter flt
             reason := "Sequential scan with filter on " ++
               String.intercalate ", " (extractColumnsFromFilter flt) ++
               " scanning ~" ++ toString pr ++ " rows"
             impact :=
               if pr > 100000 then "high"
               else if pr > 10000 then "medium"
               else "low"
             createStatement := "CREATE INDEX idx_" ++ optStr rn ++ "_" ++
               String.intercalate "_" (extractColumnsFromFilter flt) ++ " ON " ++
               schema ++ "." ++ optStr rn ++ " (" ++
               String.intercalate ", " (extractColumnsFromFilter flt) ++ ");" }] := by
      rw [ruleA]
      rw [if_pos ⟨hflt, by simpa using hpr⟩]
      by_cases hc : extractColumnsFromFilter flt = []
      · simp [hc]
      · simp only [hc, if_neg, if_false, ite_false]
        simp [hc]
    rw [hA]
    simp
  · exact columns_nodup flt

/-- Witness for C4 at the node: Seq Scan on `users`, filter
`(user_id = 5)`, 20,000 estimated rows, schema `public`. -/
theorem analyzePlanNode_seqScan_claim_witness :
    analyzePlanNode
        (.mk (some "Seq Scan") (some "users") (some "(user_id = 5)") (some 20000)
          none none none []) "public" =
      (if extractColumnsFromFilter "(user_id = 5)" = [] then []
       else
        [{ table := some "users"
           columns := extractColumnsFromFilter "(user_id = 5)"
           reason := "Sequential scan with filter on " ++
             String.intercalate ", " (extractColumnsFromFilter "(user_id = 5)") ++
             " scanning ~" ++ toString (20000 : Int) ++ " rows"
           impact :=
             if (20000 : Int) > 100000 then "high"
             else if (20000 : Int) > 10000 then "medium"
             else "low"
           createStatement := "CREATE INDEX idx_" ++ optStr (some "users") ++ "_" ++
             String.intercalate "_" (extractColumnsFromFilter "(user_id = 5)") ++ " ON " ++
             "public" ++ "." ++ optStr (some "users") ++ " (" ++
             String.intercalate ", " (extractColumnsFromFilter "(user_id = 5)") ++ ");" }]) ++
        analyzePlanList [] "public"
      ∧ (extractColumnsFromFilter "(user_id = 5)").Nodup :=
  analyzePlanNode_seqScan_claim (some "users") "(user_id = 5)" 20000 none none none
    [] "public" (by decide) (by decide)

/-- Claim C5 counterexample: the code does not strip only a *trailing*
`ASC`/`DESC` direction marker — it removes the first case-insensitive
occurrence of a space followed by `ASC` or `DESC` anywhere in the key.
For the sort key `"a ascending"` (which carries no trailing direction
marker, so under the claim the column would be `"a ascending"`), the
emitted column is `"aending"`. -/
theorem sortSuggestion_columns_counterexample :
    (analyzePlanNode
        (.mk (some "Sort") none none (some 6000) none (some ["a ascending"])
          none []) "public").map (fun s => s.columns) = [["aending"]]
    ∧ ("aending" : String) ≠ "a ascending" := by
  constructor
  · decide
  · decide

/-- Claim C5, amended: for every Sort node with nonempty sort keys and
more than 5000 estimated rows, the one emitted suggestion has as columns
the sort keys transformed by `stripSortKey` (everything through the last
dot of the first dot-containing line removed, then the *first*
case-insensitive occurrence of a space followed by `ASC` or `DESC`
removed), impact `high` above 50,000 rows else `medium`, and a
commented-out create-statement template with a `<table>` placeholder. -/
theorem analyzePlanNode_sort_claim
    (rn f : Option String) (pr : Int) (tc : Option ℚ) (keys : List String)
    (pl : Option PlanNode) (plans : List PlanNode) (schema : String)
    (hkeys : keys ≠ []) (hpr : pr > 5000) :
    analyzePlanNode (.mk (some "Sort") rn f (some pr) tc (some keys) pl plans)
        schema =
      [{ table := some (rn.getD "unknown")
         columns := keys.map stripSortKey
         reason := "Sort operation on " ++
           String.intercalate ", " (keys.map stripSortKey) ++ " with ~" ++
           toString pr ++ " rows. An index could eliminate the sort."
         impact := if pr > 50000 then "high" else "medium"
         createStatement := "-- Consider adding an index to support this sort:\n-- CREATE INDEX idx_sort_" ++
           String.intercalate "_" (keys.map stripSortKey) ++ " ON " ++ schema ++
           ".<table> (" ++
           String.intercalate ", " (keys.map stripSortKey) ++ ");" }] ++
        analyzePlanList plans schema := by
  rw [analyzePlanNode]
  have hA : ruleA (some "Sort") rn f (some pr) schema = [] := by
    cases f <;> rfl
  rw [hA]
  have hB : ruleB (some "Sort") rn (some pr) (some keys) schema =
      [{ table := some (rn.getD "unknown")
         columns := keys.map stripSortKey
         reason := "Sort operation on " ++
           String.intercalate ", " (keys.map stripSortKey) ++ " with ~" ++
           toString pr ++ " rows. An index could eliminate the sort."
         impact := if pr > 50000 then "high" else "medium"
         createStatement := "-- Consider adding an index to support this sort:\n-- CREATE INDEX idx_sort_" ++
           String.intercalate "_" (keys.map stripSortKey) ++ " ON " ++ schema ++
           ".<table> (" ++
           String.intercalate ", " (keys.map stripSortKey) ++ ");" }] := by
    rw [ruleB]
    rw [if_pos ⟨by simpa using hkeys, by simpa using hpr⟩]
    rfl
  rw [hB]
  simp

/-- Witness for the amended C5 at the node: Sort with key
`created_at DESC`, 60,000 estimated rows, schema `public`. -/
theorem analyzePlanNode_sort_claim_witness :
    analyzePlanNode
        (.mk (some "Sort") none none (some 60000) none (some ["created_at DESC"])
          none []) "public" =
      [{ table := some ((none : Option String).getD "unknown")
         columns := ["created_at DESC"].map stripSortKey
         reason := "Sort operation on " ++
           String.intercalate ", " (["created_at DESC"].map stripSortKey) ++
           " with ~" ++ toString (60000 : Int) ++
           " rows. An index could eliminate the sort."
         impact := if (60000 : Int) > 50000 then "high" else "medium"
         createStatement := "-- Consider adding an index to support this sort:\n-- CREATE INDEX idx_sort_" ++
           String.intercalate "_" (["created_at DESC"].map stripSortKey) ++
           " ON " ++ "public" ++ ".<table> (" ++
           String.intercalate ", " (["created_at DESC"].map stripSortKey) ++ ");" }] ++
        analyzePlanList [] "public" :=
  analyzePlanNode_sort_claim none none 60000 none ["created_at DESC"] none []
    "public" (by decide) (by decide)

/-- Claim C6 counterexample: `analyzePlanNode` does not unwrap a
`{Plan: node}` envelope at visited nodes.  A root whose only content is
an envelope around a suggestible Seq Scan yields no suggestions, while
the unwrapped node itself yields one — under the claimed per-node
unwrapping rule the two would be equal. -/
theorem analyzePlanNode_no_child_unwrap :
    analyzePlanNode
        (.mk none none none none none none
          (some (.mk (some "Seq Scan") (some "u") (some "(x = 1)") (some 2000)
            none none none [])) []) "public" = []
    ∧ analyzePlanNode
        (.mk (some "Seq Scan") (some "u") (some "(x = 1)") (some 2000)
          none none none []) "public" ≠ [] := by
  constructor
  · decide
  · decide

/-- Claim C6, amended: `suggestIndexes` unwraps the single-level
`{Plan: node}` envelope exactly once, at the root, before the traversal
starts; `analyzePlanNode` itself reads every node's fields directly, and
a node's `Plan` field never influences its suggestions. -/
theorem suggestIndexes_root_unwrap_only :
    (∀ (inner : PlanNode) (nt rn f : Option String) (pr : Option Int)
        (tc : Option ℚ) (sk : Option (List String)) (plans : List PlanNode)
        (schema : String),
      suggestIndexesPure (.mk nt rn f pr tc sk (some inner) plans) schema =
        analyzePlanNode inner schema)
    ∧ (∀ (nt rn f : Option String) (pr : Option Int) (tc : Option ℚ)
        (sk : Option (List String)) (q : PlanNode) (plans : List PlanNode)
        (schema : String),
      analyzePlanNode (.mk nt rn f pr tc sk (some q) plans) schema =
        analyzePlanNode (.mk nt rn f pr tc sk none plans) schema) := by
  constructor
  · intro inner nt rn f pr tc sk plans schema
    rfl
  · intro nt rn f pr tc sk q plans schema
    rw [analyzePlanNode, analyzePlanNode]

/-- Claim C7: on every execution path of `queryReadOnly`, the connection
is released exactly once and last; every failure of BEGIN / execute /
COMMIT makes the call fail with a ROLLBACK issued before the release;
and no path leaves the transaction open. -/
theorem queryReadOnly_rollback_release (o : FailureOracle) :
    ((queryReadOnlyTrace o).1.count .releaseCmd = 1
      ∧ (queryReadOnlyTrace o).1.getLast? = some .releaseCmd)
    ∧ ((o.beginFails || o.execFails || o.commitFails) = true →
        (queryReadOnlyTrace o).2 = false
          ∧ DbCmd.rollbackCmd ∈ (queryReadOnlyTrace o).1.dropLast)
    ∧ txnOpenAfter (queryReadOnlyTrace o).1 = false := by
  obtain ⟨b, e, c⟩ := o
  cases b <;> cases e <;> cases c <;> refine ⟨by decide, ?_, by decide⟩ <;>
    intro h <;> first
    | exact absurd h (by decide)
    | decide

/-- Witness for C7 at the oracle where only the statement execution
fails. -/
theorem queryReadOnly_rollback_release_witness :
    (queryReadOnlyTrace ⟨false, true, false⟩).2 = false
      ∧ DbCmd.rollbackCmd ∈ (queryReadOnlyTrace ⟨false, true, false⟩).1.dropLast :=
  (queryReadOnly_rollback_release ⟨false, true, false⟩).2.1 (by decide)

/-- Claim C8: a null or absent buffer-cache aggregate renders the
`cache_hit_ratio` field as the literal `"N/A"` (which is not `"0%"`),
and a present value renders as the value followed by `%`. -/
theorem cacheHitRatio_render (sizeRows : List String) (connRows : List ConnRow)
    (txRows : List TxRow) (rest : List (Option String)) :
    ((getDatabaseHealthPure sizeRows connRows [] txRows).cacheHitRatio = "N/A"
      ∧ (getDatabaseHealthPure sizeRows connRows (none :: rest) txRows).cacheHitRatio
          = "N/A"
      ∧ ("N/A" : String) ≠ "0%")
    ∧ ∀ s : String, s ≠ "" →
        (getDatabaseHealthPure sizeRows connRows (some s :: rest) txRows).cacheHitRatio
          = s ++ "%" := by
  refine ⟨⟨rfl, rfl, by decide⟩, ?_⟩
  intro s hs
  show (if s ≠ "" then s ++ "%" else "N/A") = s ++ "%"
  rw [if_pos hs]

/-- Witness for C8: with the single value `"99.98"` present the field
renders as `"99.98%"`. -/
theorem cacheHitRatio_render_witness :
    (getDatabaseHealthPure [] [] [some "99.98"] []).cacheHitRatio = "99.98" ++ "%" :=
  (cacheHitRatio_render [] [] [] []).2 "99.98" (by decide)

/-- Claim C10: the both-null-or-both-non-null invariant holds initially
and is preserved by every operation on every failure path, so
`isConnected` is true exactly when `getConnectionInfo` is non-null; and
`disconnect` on an already-disconnected manager is a no-op that
succeeds. -/
theorem databaseManager_invariant :
    ManagerInv initialState
    ∧ (∀ s c h o, ManagerInv s → ManagerInv (connect s c h o).1)
    ∧ (∀ s b, ManagerInv s → ManagerInv (disconnect s b).1)
    ∧ (∀ s, ManagerInv s →
        ManagerInv (queryReadOnlyOp s).1 ∧ ManagerInv (queryOp s).1)
    ∧ (∀ s, ManagerInv s → (isConnected s = true ↔ getConnectionInfo s ≠ none))
    ∧ (∀ s b, s.pool = none → disconnect s b = (s, true)) := by
  refine ⟨by simp [ManagerInv, initialState], ?_, ?_, ?_, ?_, ?_⟩
  · intro s c h o hs
    obtain ⟨p, cf⟩ := s
    cases p with
    | none => simp [connect, ManagerInv]
    | some pid =>
      cases hef : o.endFails with
      | true => simpa [connect, disconnect, hef] using hs
      | false => simp [connect, disconnect, hef, ManagerInv]
  · intro s b hs
    obtain ⟨p, cf⟩ := s
    cases p with
    | none => simpa [disconnect] using hs
    | some pid =>
      cases b with
      | true => simpa [disconnect] using hs
      | false => simp [disconnect, ManagerInv]
  · intro s hs
    exact ⟨hs, hs⟩
  · intro s hs
    obtain ⟨p, cf⟩ := s
    cases p with
    | none =>
      simp only [ManagerInv] at hs
      simp [isConnected, getConnectionInfo, hs.mp trivial]
    | some pid =>
      simp only [ManagerInv] at hs
      cases cf with
      | none => simpa using hs.mpr rfl
      | some c => simp [isConnected, getConnectionInfo]
  · intro s b hp
    obtain ⟨p, cf⟩ := s
    cases hp
    rfl

/-- Witness for C10: the invariant propagates through a concrete
connect / query / disconnect / disconnect sequence from the initial
state. -/
theorem databaseManager_invariant_witness :
    ManagerInv (connect initialState
      ⟨"localhost", 5432, "db", "u", "pw", none⟩ 1 ⟨false, false⟩).1
    ∧ (isConnected initialState = true ↔ getConnectionInfo initialState ≠ none)
    ∧ disconnect initialState false = (initialState, true) :=
  ⟨databaseManager_invariant.2.1 initialState
      ⟨"localhost", 5432, "db", "u", "pw", none⟩ 1 ⟨false, false⟩ (by simp [ManagerInv, initialState]),
   databaseManager_invariant.2.2.2.2.1 initialState (by simp [ManagerInv, initialState]),
   databaseManager_invariant.2.2.2.2.2 initialState false rfl⟩

end PgProbe
